import Mathlib

/-!
Verification development for the img-similarity-cluster repository.

The repository contains two generations of the clustering tool
(img-similarity-cluster.cpp: a current version and an older revision) and the
point-query tool img-search.cpp.  The image decoder and the perceptual hash
(OpenCV PHash) are external capabilities; following the specification they are
abstracted into an `Input` record: `n` is the size of `file_list`, `valid i`
states whether `cv::imread` produced data for file `i` (and hence a hash was
stored), and `dist i j` is the value `hash_func->compare(hash_i, hash_j)`
(a nonnegative real, modelled as a rational; the code only ever samples it on
ordered pairs `i < j` in the clustering tools).

Containers are translated as follows: `std::set<unsigned long>` becomes
`Finset Nat`, `std::map<unsigned long, std::set<unsigned long>>` of the
current tool becomes the `Finset (Nat × Nat)` of its (key, element) pairs
(every key of that map is created immediately before an element is inserted
into its set, so no key ever maps to an empty set and the pair representation
is exact), and map/set iteration follows the ascending key order of the C++
containers (`Finset.sort`).
-/

/-- Abstraction of one run's input: number of files, which files decode
successfully (and therefore get a hash), and the pairwise hash distance
reported by the external PHash comparison. -/
structure Input where
  n : Nat
  valid : Nat → Bool
  dist : Nat → Nat → ℚ

/-! ## Current img-similarity-cluster.cpp: comparison phase -/

/-- Embedding of `calculate_similar_pairs` for one worker thread: the set of
(i, j) pairs the thread inserts into `image_similarities`.  The outer loop
visits every `i < n`, skips rows not owned by this thread
(`i % num_threads != thread_id`) and rows whose image has no data; the inner
loop visits `j` in `i+1 .. n-1`, skips invalid `j`, and records the pair when
`compare(hash_i, hash_j) <= threshold`. -/
def calculate_similar_pairs (inp : Input) (threshold : ℚ)
    (thread_id num_threads : Nat) : Finset (Nat × Nat) :=
  (Finset.range inp.n ×ˢ Finset.range inp.n).filter
    (fun p => p.1 % num_threads = thread_id ∧ inp.valid p.1 = true ∧
      p.1 < p.2 ∧ inp.valid p.2 = true ∧ inp.dist p.1 p.2 ≤ threshold)

/-- The shared `image_similarities` map after all comparison workers joined:
the union of every thread's insertions (insertion into the mutex-guarded
`std::map`/`std::set` has set semantics, and each key `i` is only ever touched
by the thread owning row `i`). -/
def image_similarities (inp : Input) (threshold : ℚ)
    (num_threads : Nat) : Finset (Nat × Nat) :=
  (Finset.range num_threads).biUnion
    (fun t => calculate_similar_pairs inp threshold t num_threads)

/-- Adjacency set of id `i` in the pair-represented map: the set stored under
key `i` (empty when `i` is not a key, matching the
`image_similarities.contains` guard of the current tool). -/
def adjOf (g : Finset (Nat × Nat)) (i : Nat) : Finset Nat :=
  (g.filter (fun p => p.1 = i)).image Prod.snd

/-- Keys of the pair-represented `image_similarities` map. -/
def keysOf (g : Finset (Nat × Nat)) : Finset Nat := g.image Prod.fst

/-- All ids occurring anywhere in the map, as key or as stored neighbor. -/
def allIds (g : Finset (Nat × Nat)) : Finset Nat :=
  g.image Prod.fst ∪ g.image Prod.snd

/-- Ascending enumeration of a finite set of ids.  Every id handled by the
tools is an index into `file_list`, hence below the bound `n`; for such sets
this list is exactly the ascending iteration order of the C++ `std::set` and
`std::map` containers. -/
def ascList (bound : Nat) (s : Finset Nat) : List Nat :=
  (List.range bound).filter (fun a => a ∈ s)

/-! ## build_temp_cluster

Embedding of the recursive depth-first search shared by both generations of
the tool.  The C++ function mutates `temp_cluster` by reference while
iterating the `std::set` `image_similarities.at(start)` in ascending order:
an element already in `temp_cluster` is skipped, a new element is inserted
and recursed into.  The recursion is unbounded in C++; here it carries a fuel
argument, and theorem `c10_build_temp_cluster_terminates` below shows the
result is stable for any fuel at least the number of ids in the graph, which
is exactly the claim that the recursion depth is bounded by the number of
ids.  The current tool's `contains(start)` guard is the case
`adj start = ∅`, where the fold below is a no-op; the older revision calls
`at(start)` only on keys of its map, where its total adjacency agrees. -/
def build_temp_cluster (bound : Nat) (adj : Nat → Finset Nat) :
    Nat → Finset Nat → Nat → Finset Nat
  | 0, temp, _ => temp
  | fuel+1, temp, start =>
    (ascList bound (adj start)).foldl
      (fun acc i =>
        if i ∈ acc then acc
        else build_temp_cluster bound adj fuel (insert i acc) i)
      temp

/-- Embedding of the merge scan in `main`: walk the existing clusters in
order; the first one sharing an element with `temp_cluster`
(`find_first_of` finds a common element) absorbs it in place and the scan
stops (`break`); if none intersects, `temp_cluster` is appended at the end
(`push_back`). -/
def unify : List (Finset Nat) → Finset Nat → List (Finset Nat)
  | [], temp => [temp]
  | c :: rest, temp =>
    if (c ∩ temp).Nonempty then (c ∪ temp) :: rest else c :: unify rest temp

/-- One iteration of the cluster-construction loop in `main`, identical in
both generations: an id with an empty adjacency set is skipped (the older
revision additionally records it as unique), otherwise the component grown
from `{i.first}` by `build_temp_cluster` is unified with the clusters built
so far. -/
def cluster_step (bound : Nat) (adj : Nat → Finset Nat) (fuel : Nat)
    (clusters : List (Finset Nat)) (i : Nat) : List (Finset Nat) :=
  if adj i = ∅ then clusters
  else unify clusters (build_temp_cluster bound adj fuel (insert i ∅) i)

/-- The cluster-construction loop of `main`: fold `cluster_step` over the map
keys in ascending order, starting from an empty `image_clusters` vector. -/
def cluster_loop (bound : Nat) (adj : Nat → Finset Nat) (keys : List Nat)
    (fuel : Nat) : List (Finset Nat) :=
  keys.foldl (cluster_step bound adj fuel) []

/-- The `image_clusters` vector emitted by the current tool, as a function of
the abstract input, the threshold, and the worker count. -/
def image_clusters (inp : Input) (threshold : ℚ)
    (num_threads : Nat) : List (Finset Nat) :=
  cluster_loop inp.n (adjOf (image_similarities inp threshold num_threads))
    (ascList inp.n (keysOf (image_similarities inp threshold num_threads)))
    (allIds (image_similarities inp threshold num_threads)).card

/-! ## Older revision of img-similarity-cluster.cpp -/

/-- Keys of the older revision's `img_hash_values` map (and hence of its
`image_similarities` map, which is pre-filled with every hashed id): the ids
whose image decoded successfully. -/
def valid_ids (inp : Input) : Finset Nat :=
  (Finset.range inp.n).filter (fun i => inp.valid i = true)

/-- Adjacency map of the older revision.  `image_deltas` holds
`compare(hash_i, hash_j)` for every ordered pair `i < j` of hashed ids, and
each pair within the threshold is inserted in both directions, so `j` is
adjacent to `i` when both are valid and the delta of the ordered version of
the pair is within the threshold.  Non-keys (unreadable ids) map to the empty
set; the C++ map simply has no such entry. -/
def adjacency_old (inp : Input) (threshold : ℚ) (i : Nat) : Finset Nat :=
  if i < inp.n ∧ inp.valid i = true then
    (Finset.range inp.n).filter (fun j => inp.valid j = true ∧
      ((i < j ∧ inp.dist i j ≤ threshold) ∨ (j < i ∧ inp.dist j i ≤ threshold)))
  else ∅

/-- The `image_clusters` vector emitted by the older revision: same loop,
iterating every hashed id (all of them are keys there). -/
def image_clusters_old (inp : Input) (threshold : ℚ) : List (Finset Nat) :=
  cluster_loop inp.n (adjacency_old inp threshold)
    (ascList inp.n (valid_ids inp)) (valid_ids inp).card

/-- The `unique_images` set of the older revision: hashed ids whose adjacency
set is empty when the cluster loop reaches them. -/
def unique_images_old (inp : Input) (threshold : ℚ) : Finset Nat :=
  (valid_ids inp).filter (fun i => adjacency_old inp threshold i = ∅)

/-! ## img-search.cpp -/

/-- Abstract input of img-search: `n` haystack files read from stdin, `m`
search files from the command line, decode success on each side, and the
cross distance `compare(img_hash_i, search_hash_j)`. -/
structure SearchInput where
  n : Nat
  m : Nat
  validH : Nat → Bool
  validS : Nat → Bool
  distHS : Nat → Nat → ℚ

/-- Embedding of the comparison scan of img-search `main`: `results` collects
every haystack id with a hash (key of `img_hash_values`) whose distance to
some hashed search image is within the threshold. -/
def search_results (sinp : SearchInput) (threshold : ℚ) : Finset Nat :=
  (Finset.range sinp.n).filter (fun i => sinp.validH i = true ∧
    ∃ j ∈ Finset.range sinp.m, sinp.validS j = true ∧ sinp.distHS i j ≤ threshold)

/-! ## Threshold parsing -/

/-- Threshold selection of the current img-similarity-cluster `main`:
`threshold` starts at the built-in default 0.2 and is overwritten only when
`-t` was given and `stod` succeeds; the `catch` block is empty, so a failed
parse keeps the default.  `stod_result` is `some v` when `stod` returns `v`
and `none` when it throws. -/
def cluster_threshold (flag_threshold : Bool) (stod_result : Option ℚ) : ℚ :=
  if flag_threshold then
    match stod_result with
    | some v => v
    | none => 0.2
  else 0.2

/-- Threshold selection of img-search `main`: default 2.0, overwritten only
when `-t` was given and `stod` succeeds; the `catch` block prints a message
and continues with the default. -/
def search_threshold (flag_threshold : Bool) (stod_result : Option ℚ) : ℚ :=
  if flag_threshold then
    match stod_result with
    | some v => v
    | none => 2
  else 2

/-! ## Concrete inputs used by counterexamples and witnesses -/

/-- Distance table of the overlap counterexample: edges (0,3), (2,3), (2,4)
and (1,4) at distance 1, every other pair far away.  Realizable by PHash
(Hamming distance of 64-bit hashes), e.g. h0=e1+e5, h1=e2+e6, h2=0, h3=e1,
h4=e2. -/
def distA : Nat → Nat → ℚ
  | 0, 3 => 1
  | 2, 3 => 1
  | 2, 4 => 1
  | 1, 4 => 1
  | _, _ => 10

/-- Five readable images with distance table `distA`. -/
def exA : Input := { n := 5, valid := fun _ => true, dist := distA }

/-- Distance table of the threshold-refinement counterexample: edges (2,4)
and (1,4) at distance 1, edges (0,3) and (2,3) at distance 2, the rest far
away. -/
def distB : Nat → Nat → ℚ
  | 0, 3 => 2
  | 2, 3 => 2
  | 2, 4 => 1
  | 1, 4 => 1
  | _, _ => 10

/-- Five readable images with distance table `distB`. -/
def exB : Input := { n := 5, valid := fun _ => true, dist := distB }

/-- Two readable images at distance 1 from each other. -/
def exPair : Input := { n := 2, valid := fun _ => true, dist := fun _ _ => 1 }

/-- Three images, the middle one unreadable, all distances 1. -/
def exInvalid : Input :=
  { n := 3, valid := fun i => i != 1, dist := fun _ _ => 1 }

/-- Point-query scenario: haystack {X = 0 similar to the query, Y = 1 not
similar}, search set {Q = 0}. -/
def exSearch : SearchInput :=
  { n := 2, m := 1, validH := fun _ => true, validS := fun _ => true,
    distHS := fun i _ => if i = 0 then 1 else 10 }

/-! ## Basic lemmas about the embedding -/

/-- Membership in the ascending enumeration of a set of ids. -/
lemma mem_ascList (bound : Nat) (s : Finset Nat) (a : Nat) :
    a ∈ ascList bound s ↔ a < bound ∧ a ∈ s := by
  simp [ascList, List.mem_filter, List.mem_range]

/-- Membership in one worker's contribution to the similarity map. -/
lemma mem_calculate_similar_pairs (inp : Input) (τ : ℚ)
    (t N : Nat) (p : Nat × Nat) :
    p ∈ calculate_similar_pairs inp τ t N ↔
      (p.1 < inp.n ∧ p.2 < inp.n ∧ p.1 % N = t ∧ inp.valid p.1 = true ∧
        p.1 < p.2 ∧ inp.valid p.2 = true ∧ inp.dist p.1 p.2 ≤ τ) := by
  simp only [calculate_similar_pairs, Finset.mem_filter, Finset.mem_product,
    Finset.mem_range]
  tauto

/-- Membership in the finished similarity map of the current tool: the thread
decomposition is a partition of the rows, so for any positive worker count
the map holds exactly the valid ordered pairs within the threshold. -/
lemma mem_image_similarities (inp : Input) (τ : ℚ) (N : Nat)
    (hN : 1 ≤ N) (p : Nat × Nat) :
    p ∈ image_similarities inp τ N ↔
      (p.1 < inp.n ∧ p.2 < inp.n ∧ inp.valid p.1 = true ∧
        p.1 < p.2 ∧ inp.valid p.2 = true ∧ inp.dist p.1 p.2 ≤ τ) := by
  unfold image_similarities
  simp only [Finset.mem_biUnion, Finset.mem_range]
  constructor
  · rintro ⟨t, _, hp⟩
    have h := (mem_calculate_similar_pairs inp τ t N p).mp hp
    tauto
  · intro h
    exact ⟨p.1 % N, Nat.mod_lt _ (by omega),
      (mem_calculate_similar_pairs inp τ (p.1 % N) N p).mpr (by tauto)⟩

/-- Membership in the older revision's adjacency map. -/
lemma mem_adjacency_old (inp : Input) (τ : ℚ) (i j : Nat) :
    j ∈ adjacency_old inp τ i ↔
      (i < inp.n ∧ inp.valid i = true ∧ j < inp.n ∧ inp.valid j = true ∧
        ((i < j ∧ inp.dist i j ≤ τ) ∨ (j < i ∧ inp.dist j i ≤ τ))) := by
  unfold adjacency_old
  split_ifs with h
  · simp only [Finset.mem_filter, Finset.mem_range]
    tauto
  · simp only [Finset.not_mem_empty, false_iff]
    tauto

/-- Stored adjacency sets only hold ids occurring in the map. -/
lemma adjOf_subset_allIds (g : Finset (Nat × Nat)) (i : Nat) :
    adjOf g i ⊆ allIds g := by
  intro x hx
  obtain ⟨p, hp, rfl⟩ := Finset.mem_image.mp hx
  exact Finset.mem_union_right _
    (Finset.mem_image.mpr ⟨p, (Finset.mem_filter.mp hp).1, rfl⟩)

/-- Every id occurring in the finished similarity map of the current tool is
a valid index. -/
lemma allIds_valid (inp : Input) (τ : ℚ) (N : Nat) (hN : 1 ≤ N) :
    ∀ x ∈ allIds (image_similarities inp τ N),
      x < inp.n ∧ inp.valid x = true := by
  intro x hx
  rcases Finset.mem_union.mp hx with h | h
  · obtain ⟨p, hp, rfl⟩ := Finset.mem_image.mp h
    have hc := (mem_image_similarities inp τ N hN p).mp hp
    exact ⟨hc.1, hc.2.2.1⟩
  · obtain ⟨p, hp, rfl⟩ := Finset.mem_image.mp h
    have hc := (mem_image_similarities inp τ N hN p).mp hp
    exact ⟨hc.2.1, hc.2.2.2.2.1⟩

/-- Elements of the older revision's adjacency sets are valid ids. -/
lemma adjacency_old_subset (inp : Input) (τ : ℚ) (i : Nat) :
    adjacency_old inp τ i ⊆ valid_ids inp := by
  intro x hx
  have h := (mem_adjacency_old inp τ i x).mp hx
  exact Finset.mem_filter.mpr ⟨Finset.mem_range.mpr h.2.2.1, h.2.2.2.1⟩

/-! ## Fold invariants and DFS lemmas -/

/-- Invariant preservation along a left fold. -/
lemma foldl_invariant {α β : Type} (P : β → Prop) (step : β → α → β) :
    ∀ (l : List α) (init : β), P init →
      (∀ acc a, a ∈ l → P acc → P (step acc a)) → P (l.foldl step init) := by
  intro l
  induction l with
  | nil => intro init h _; exact h
  | cons a l ih =>
    intro init h hstep
    simp only [List.foldl_cons]
    exact ih (step init a) (hstep init a (List.mem_cons_self a l) h)
      (fun acc b hb hacc => hstep acc b (List.mem_cons_of_mem a hb) hacc)

/-- A left fold whose step fixes the accumulator on every list element
returns the accumulator. -/
lemma foldl_fixed {α β : Type} (step : β → α → β) :
    ∀ (l : List α) (acc : β), (∀ a ∈ l, step acc a = acc) →
      l.foldl step acc = acc := by
  intro l
  induction l with
  | nil => intro acc _; rfl
  | cons a l ih =>
    intro acc h
    simp only [List.foldl_cons, h a (List.mem_cons_self a l)]
    exact ih acc (fun b hb => h b (List.mem_cons_of_mem a hb))

/-- The DFS only ever inserts: the visited set grows. -/
lemma btc_mono (bound : Nat) (adj : Nat → Finset Nat) :
    ∀ fuel temp start, temp ⊆ build_temp_cluster bound adj fuel temp start := by
  intro fuel
  induction fuel with
  | zero => intro temp start; exact Finset.Subset.refl temp
  | succ f ih =>
    intro temp start
    simp only [build_temp_cluster]
    refine foldl_invariant (fun acc => temp ⊆ acc) _ _ temp
      (Finset.Subset.refl temp) ?_
    intro acc a _ hacc
    by_cases ha : a ∈ acc
    · rwa [if_pos ha]
    · rw [if_neg ha]
      exact hacc.trans ((Finset.subset_insert a acc).trans
        (ih (insert a acc) a))

/-- The DFS only inserts neighbors: the result stays inside the initial
visited set united with any superset of the adjacency sets. -/
lemma btc_subset (bound : Nat) (adj : Nat → Finset Nat) (U : Finset Nat)
    (hadj : ∀ i, adj i ⊆ U) :
    ∀ fuel temp start,
      build_temp_cluster bound adj fuel temp start ⊆ temp ∪ U := by
  intro fuel
  induction fuel with
  | zero => intro temp start; exact Finset.subset_union_left
  | succ f ih =>
    intro temp start
    simp only [build_temp_cluster]
    refine foldl_invariant (fun acc => acc ⊆ temp ∪ U) _ _ temp
      Finset.subset_union_left ?_
    intro acc a ha hacc
    have haU : a ∈ U := hadj start ((mem_ascList bound _ a).mp ha).2
    by_cases hmem : a ∈ acc
    · rwa [if_pos hmem]
    · rw [if_neg hmem]
      refine (ih (insert a acc) a).trans ?_
      intro x hx
      rcases Finset.mem_union.mp hx with h1 | h2
      · rcases Finset.mem_insert.mp h1 with rfl | hxa
        · exact Finset.mem_union_right _ haU
        · exact hacc hxa
      · exact Finset.mem_union_right _ h2

/-- When every reachable id is already visited, the DFS is the identity. -/
lemma btc_noop (bound : Nat) (adj : Nat → Finset Nat) (U temp : Finset Nat)
    (hadj : ∀ i, adj i ⊆ U) (hU : U ⊆ temp) :
    ∀ fuel start, build_temp_cluster bound adj fuel temp start = temp := by
  intro fuel
  induction fuel with
  | zero => intro start; rfl
  | succ f _ =>
    intro start
    simp only [build_temp_cluster]
    apply foldl_fixed
    intro i hi
    have : i ∈ temp := hU (hadj start ((mem_ascList bound _ i).mp hi).2)
    rw [if_pos this]

/-- Stabilization of the fuelled DFS: every recursive call of the C++
function first inserts an id not previously visited, so once the fuel covers
the number of unvisited ids the result no longer depends on it. -/
lemma btc_stab (bound : Nat) (adj : Nat → Finset Nat) (U : Finset Nat)
    (hadj : ∀ i, adj i ⊆ U) :
    ∀ c f₁ f₂ temp start, (U \ temp).card ≤ c → c ≤ f₁ → c ≤ f₂ →
      build_temp_cluster bound adj f₁ temp start =
        build_temp_cluster bound adj f₂ temp start := by
  intro c
  induction c with
  | zero =>
    intro f₁ f₂ temp start hc _ _
    have hsub : U ⊆ temp := Finset.sdiff_eq_empty_iff_subset.mp
      (Finset.card_eq_zero.mp (Nat.le_zero.mp hc))
    rw [btc_noop bound adj U temp hadj hsub f₁ start,
      btc_noop bound adj U temp hadj hsub f₂ start]
  | succ c ih =>
    intro f₁ f₂ temp start hc h1 h2
    obtain ⟨g₁, rfl⟩ : ∃ g, f₁ = g + 1 := ⟨f₁ - 1, by omega⟩
    obtain ⟨g₂, rfl⟩ : ∃ g, f₂ = g + 1 := ⟨f₂ - 1, by omega⟩
    simp only [build_temp_cluster]
    have hl : ∀ i ∈ ascList bound (adj start), i ∈ U :=
      fun i hi => hadj start ((mem_ascList bound _ i).mp hi).2
    suffices H : ∀ (l : List Nat), (∀ i ∈ l, i ∈ U) → ∀ acc : Finset Nat,
        (U \ acc).card ≤ c + 1 →
        l.foldl (fun acc i => if i ∈ acc then acc
          else build_temp_cluster bound adj g₁ (insert i acc) i) acc =
        l.foldl (fun acc i => if i ∈ acc then acc
          else build_temp_cluster bound adj g₂ (insert i acc) i) acc by
      exact H _ hl temp hc
    intro l
    induction l with
    | nil => intro _ acc _; rfl
    | cons i l ihl =>
      intro hmem acc hacc
      simp only [List.foldl_cons]
      by_cases hi : i ∈ acc
      · rw [if_pos hi, if_pos hi]
        exact ihl (fun j hj => hmem j (List.mem_cons_of_mem i hj)) acc hacc
      · rw [if_neg hi, if_neg hi]
        have hiU : i ∈ U := hmem i (List.mem_cons_self i l)
        have hcard : (U \ insert i acc).card < (U \ acc).card := by
          apply Finset.card_lt_card
          rw [Finset.ssubset_iff_of_subset (Finset.sdiff_subset_sdiff
            (Finset.Subset.refl U) (Finset.subset_insert i acc))]
          exact ⟨i, Finset.mem_sdiff.mpr ⟨hiU, hi⟩, by simp⟩
        have heq : build_temp_cluster bound adj g₁ (insert i acc) i =
            build_temp_cluster bound adj g₂ (insert i acc) i :=
          ih g₁ g₂ (insert i acc) i (by omega) (by omega) (by omega)
        rw [heq]
        apply ihl (fun j hj => hmem j (List.mem_cons_of_mem i hj))
        calc (U \ build_temp_cluster bound adj g₂ (insert i acc) i).card
            ≤ (U \ acc).card := Finset.card_le_card
              (Finset.sdiff_subset_sdiff (Finset.Subset.refl U)
                ((Finset.subset_insert i acc).trans
                  (btc_mono bound adj g₂ (insert i acc) i)))
          _ ≤ c + 1 := hacc

/-- Clusters built by the loop only contain ids from a set covering the keys
and the adjacency sets. -/
lemma unify_members (W : Finset Nat) :
    ∀ (clusters : List (Finset Nat)) (temp : Finset Nat),
      (∀ c ∈ clusters, c ⊆ W) → temp ⊆ W →
      ∀ c ∈ unify clusters temp, c ⊆ W := by
  intro clusters
  induction clusters with
  | nil =>
    intro temp _ ht c hc
    rw [List.mem_singleton.mp hc]
    exact ht
  | cons c0 rest ih =>
    intro temp hall ht c hc
    unfold unify at hc
    split_ifs at hc with h
    · rcases List.mem_cons.mp hc with rfl | hr
      · exact Finset.union_subset (hall c0 (List.mem_cons_self _ _)) ht
      · exact hall c (List.mem_cons_of_mem c0 hr)
    · rcases List.mem_cons.mp hc with rfl | hr
      · exact hall c (List.mem_cons_self _ _)
      · exact ih temp (fun d hd => hall d (List.mem_cons_of_mem c0 hd)) ht c hr

/-- Every emitted cluster is contained in any set that covers the iterated
keys and all adjacency sets. -/
lemma cluster_loop_members (bound : Nat) (adj : Nat → Finset Nat)
    (W : Finset Nat) (hadj : ∀ j, adj j ⊆ W) (keys : List Nat)
    (hkeys : ∀ j ∈ keys, j ∈ W) (fuel : Nat) :
    ∀ c ∈ cluster_loop bound adj keys fuel, c ⊆ W := by
  unfold cluster_loop
  refine foldl_invariant (fun clusters => ∀ c ∈ clusters, c ⊆ W) _ keys []
    (by simp) ?_
  intro clusters k hk hP
  unfold cluster_step
  split_ifs with h
  · exact hP
  · refine unify_members W clusters _ hP ?_
    refine (btc_subset bound adj W hadj fuel (insert k ∅) k).trans ?_
    intro x hx
    rcases Finset.mem_union.mp hx with h1 | h2
    · rcases Finset.mem_insert.mp h1 with rfl | h0
      · exact hkeys _ hk
      · exact absurd h0 (Finset.not_mem_empty _)
    · exact h2

/-- Concrete two-edge graph used by the termination witness. -/
def gW : Finset (Nat × Nat) := {(0, 1), (1, 2)}

/-! ## Claim theorems -/

/-- C1: the cluster-construction loop of the current tool is evaluated at a
concrete five-image input (edges 0-3, 2-3, 2-4, 1-4 at threshold 1) and
emits the clusters {0,2,3,4} and {1,4}, which share id 4: the emitted
clusters are not pairwise disjoint.  The merge scan unifies a component only
with the first earlier cluster it intersects, and the one-directional edge
storage makes components reachable only partially from each key. -/
theorem c1_overlapping_clusters :
    image_clusters exA 1 1 = [{0, 2, 3, 4}, {1, 4}] ∧
    ¬ (image_clusters exA 1 1).Pairwise (fun c d => c ∩ d = ∅) := by decide

/-- C3: at the same concrete input, ids 0 and 1 are connected by the path
0-3-2-4-1 whose consecutive distances are all within the threshold, yet no
emitted cluster contains both: transitive connectivity fails on the code. -/
theorem c3_connected_images_split :
    (exA.dist 0 3 ≤ 1 ∧ exA.dist 2 3 ≤ 1 ∧ exA.dist 2 4 ≤ 1 ∧
      exA.dist 1 4 ≤ 1) ∧
    (∀ c ∈ image_clusters exA 1 1, ¬ (0 ∈ c ∧ 1 ∈ c)) := by decide

/-- C5: thresholds 1 < 2 on the same five images: the cluster {1,2,4}
emitted at the lower threshold is contained in no cluster emitted at the
higher threshold, so threshold refinement fails on the code. -/
theorem c5_refinement_violated :
    (1 : ℚ) < 2 ∧
    image_clusters exB 1 1 = [{1, 2, 4}] ∧
    image_clusters exB 2 1 = [{0, 2, 3, 4}, {1, 4}] ∧
    (∀ c ∈ image_clusters exB 2 1, ¬ ({1, 2, 4} : Finset Nat) ⊆ c) := by
  decide

/-- C2 counterexample: with two similar images the current tool stores the
edge only under the smaller id, so the finished graph is not symmetric:
1 is adjacent to 0 but 0 is not adjacent to 1. -/
theorem c2_graph_not_symmetric_cex :
    1 ∈ adjOf (image_similarities exPair 1 1) 0 ∧
    0 ∉ adjOf (image_similarities exPair 1 1) 1 := by decide

/-- C2 (amended): the current tool records each similar pair exactly once,
oriented from the smaller to the larger id — (i, j) is stored iff i < j,
both images are valid, and their distance is within the threshold — while
the older revision inserts both directions, making its adjacency map
symmetric. -/
theorem c2_edge_orientation (inp : Input) (τ : ℚ) (N : Nat) (hN : 1 ≤ N) :
    (∀ i j : Nat, (i, j) ∈ image_similarities inp τ N ↔
      (i < j ∧ j < inp.n ∧ inp.valid i = true ∧ inp.valid j = true ∧
        inp.dist i j ≤ τ)) ∧
    (∀ i j : Nat, j ∈ adjacency_old inp τ i ↔ i ∈ adjacency_old inp τ j) := by
  constructor
  · intro i j
    rw [mem_image_similarities inp τ N hN (i, j)]
    constructor
    · rintro ⟨_, h2, h3, h4, h5, h6⟩
      exact ⟨h4, h2, h3, h5, h6⟩
    · rintro ⟨h1, h2, h3, h4, h5⟩
      exact ⟨by omega, h2, h3, h1, h4, h5⟩
  · intro i j
    rw [mem_adjacency_old, mem_adjacency_old]
    tauto

/-- C2 witness: the amended characterization instantiated at the two-image
input with one worker. -/
theorem c2_edge_orientation_witness :
    1 ≤ 1 ∧
    ((∀ i j : Nat, (i, j) ∈ image_similarities exPair 1 1 ↔
      (i < j ∧ j < exPair.n ∧ exPair.valid i = true ∧
        exPair.valid j = true ∧ exPair.dist i j ≤ 1)) ∧
    (∀ i j : Nat, j ∈ adjacency_old exPair 1 i ↔ i ∈ adjacency_old exPair 1 j)) :=
  ⟨by decide, c2_edge_orientation exPair 1 1 (by decide)⟩

/-- C4 counterexample: in the two-image input, id 1 has a valid partner
within the threshold (image 0), yet id 1 is not a key of the finished
similarity map of the current tool. -/
theorem c4_neighbor_without_key_cex :
    exPair.valid 0 = true ∧ exPair.valid 1 = true ∧ exPair.dist 0 1 ≤ 1 ∧
    1 ∉ keysOf (image_similarities exPair 1 1) := by decide

/-- C4 (amended): in the current tool an id is a key of the similarity map
iff it is valid and some valid id with a larger index is within the
threshold; in the older revision every valid id is a key, isolated ones
included. -/
theorem c4_key_characterization (inp : Input) (τ : ℚ) (N : Nat) (hN : 1 ≤ N) :
    (∀ i : Nat, i ∈ keysOf (image_similarities inp τ N) ↔
      (i < inp.n ∧ inp.valid i = true ∧
        ∃ j, i < j ∧ j < inp.n ∧ inp.valid j = true ∧ inp.dist i j ≤ τ)) ∧
    (∀ i : Nat, i ∈ valid_ids inp ↔ (i < inp.n ∧ inp.valid i = true)) := by
  constructor
  · intro i
    unfold keysOf
    simp only [Finset.mem_image]
    constructor
    · rintro ⟨p, hp, rfl⟩
      have h := (mem_image_similarities inp τ N hN p).mp hp
      exact ⟨h.1, h.2.2.1, p.2, h.2.2.2.1, h.2.1, h.2.2.2.2.1, h.2.2.2.2.2⟩
    · rintro ⟨hin, hv, j, hij, hjn, hvj, hd⟩
      exact ⟨(i, j),
        (mem_image_similarities inp τ N hN (i, j)).mpr
          ⟨hin, hjn, hv, hij, hvj, hd⟩, rfl⟩
  · intro i
    simp [valid_ids, Finset.mem_filter, Finset.mem_range]

/-- C4 witness: the key characterization instantiated at the two-image
input with one worker. -/
theorem c4_key_characterization_witness :
    1 ≤ 1 ∧
    ((∀ i : Nat, i ∈ keysOf (image_similarities exPair 1 1) ↔
      (i < exPair.n ∧ exPair.valid i = true ∧
        ∃ j, i < j ∧ j < exPair.n ∧ exPair.valid j = true ∧
          exPair.dist i j ≤ 1)) ∧
    (∀ i : Nat, i ∈ valid_ids exPair ↔ (i < exPair.n ∧ exPair.valid i = true))) :=
  ⟨by decide, c4_key_characterization exPair 1 1 (by decide)⟩

/-- C6: for any worker count of at least one, the finished similarity map
and the emitted cluster list of the current tool coincide with the
single-worker run: row ownership `i % num_threads` partitions the outer
loop, insertion has set semantics, and no two workers touch the same key,
so neither phase depends on the worker count. -/
theorem c6_thread_count_independent (inp : Input) (τ : ℚ) (N : Nat)
    (hN : 1 ≤ N) :
    image_similarities inp τ N = image_similarities inp τ 1 ∧
    image_clusters inp τ N = image_clusters inp τ 1 := by
  have hg : image_similarities inp τ N = image_similarities inp τ 1 := by
    ext p
    rw [mem_image_similarities inp τ N hN p,
      mem_image_similarities inp τ 1 (le_refl 1) p]
  exact ⟨hg, by simp only [image_clusters, hg]⟩

/-- C6 witness: four workers versus one on the five-image input. -/
theorem c6_thread_count_independent_witness :
    1 ≤ 4 ∧
    (image_similarities exA 1 4 = image_similarities exA 1 1 ∧
      image_clusters exA 1 4 = image_clusters exA 1 1) :=
  ⟨by decide, c6_thread_count_independent exA 1 4 (by decide)⟩

/-- C7: when `stod` throws on the threshold argument, both tools keep their
built-in defaults (0.2 for the clustering tool, 2.0 for img-search) and the
run produces exactly the result of a run invoked without `-t`. -/
theorem c7_threshold_fallback (r : Option ℚ) (inp : Input) (N : Nat)
    (sinp : SearchInput) :
    (cluster_threshold true none = 0.2 ∧
      cluster_threshold true none = cluster_threshold false r ∧
      image_clusters inp (cluster_threshold true none) N =
        image_clusters inp (cluster_threshold false r) N) ∧
    (search_threshold true none = 2 ∧
      search_threshold true none = search_threshold false r ∧
      search_results sinp (search_threshold true none) =
        search_results sinp (search_threshold false r)) :=
  ⟨⟨rfl, rfl, rfl⟩, ⟨rfl, rfl, rfl⟩⟩

/-- C8: an image whose decode fails is excluded from every emitted cluster
of both tool generations and from the older revision's unique-image list;
the run itself is unaffected (the pipeline is total). -/
theorem c8_invalid_image_excluded (inp : Input) (τ : ℚ) (N : Nat) (i : Nat)
    (hN : 1 ≤ N) (hv : inp.valid i = false) :
    (∀ c ∈ image_clusters inp τ N, i ∉ c) ∧
    (∀ c ∈ image_clusters_old inp τ, i ∉ c) ∧
    i ∉ unique_images_old inp τ := by
  refine ⟨?_, ?_, ?_⟩
  · intro c hc hic
    have hsub : c ⊆ allIds (image_similarities inp τ N) := by
      refine cluster_loop_members inp.n _ _ (adjOf_subset_allIds _) _ ?_ _ c hc
      intro j hj
      exact Finset.mem_union_left _ ((mem_ascList inp.n _ j).mp hj).2
    have := (allIds_valid inp τ N hN i (hsub hic)).2
    rw [hv] at this
    exact Bool.false_ne_true this
  · intro c hc hic
    have hsub : c ⊆ valid_ids inp := by
      refine cluster_loop_members inp.n _ _ (adjacency_old_subset inp τ) _ ?_
        _ c hc
      intro j hj
      exact ((mem_ascList inp.n _ j).mp hj).2
    have := (Finset.mem_filter.mp (hsub hic)).2
    rw [hv] at this
    exact Bool.false_ne_true this
  · intro hmem
    have := (Finset.mem_filter.mp (Finset.filter_subset _ _ hmem)).2
    rw [hv] at this
    exact Bool.false_ne_true this

/-- C8 witness: three images with the middle one unreadable. -/
theorem c8_invalid_image_excluded_witness :
    1 ≤ 1 ∧ exInvalid.valid 1 = false ∧
    ((∀ c ∈ image_clusters exInvalid 1 1, 1 ∉ c) ∧
      (∀ c ∈ image_clusters_old exInvalid 1, 1 ∉ c) ∧
      1 ∉ unique_images_old exInvalid 1) :=
  ⟨by decide, by decide,
    c8_invalid_image_excluded exInvalid 1 1 1 (by decide) (by decide)⟩

/-- C9: img-search reports exactly the haystack ids with a valid hash whose
distance to some valid search image is within the threshold; in the
haystack {X = 0 similar, Y = 1 dissimilar} with search set {Q}, the result
is exactly {X}. -/
theorem c9_search_results_exact :
    (∀ (sinp : SearchInput) (τ : ℚ) (i : Nat),
      i ∈ search_results sinp τ ↔
        (i < sinp.n ∧ sinp.validH i = true ∧
          ∃ j, j < sinp.m ∧ sinp.validS j = true ∧ sinp.distHS i j ≤ τ)) ∧
    (exSearch.distHS 0 0 ≤ 1 ∧ ¬ exSearch.distHS 1 0 ≤ 1 ∧
      search_results exSearch 1 = {0}) := by
  constructor
  · intro sinp τ i
    simp [search_results, Finset.mem_filter, Finset.mem_range]
  · exact ⟨by decide, by decide, by decide⟩

/-- C10: the depth-first search terminates because each recursive call first
inserts an id not previously visited: for any adjacency map whose sets are
contained in a finite universe, any two fuels of at least the universe's
size give the same result — the recursion depth is bounded by the number of
ids in the graph. -/
theorem c10_build_temp_cluster_terminates (bound : Nat)
    (adj : Nat → Finset Nat) (U : Finset Nat) (hadj : ∀ i, adj i ⊆ U)
    (temp : Finset Nat) (start f₁ f₂ : Nat)
    (h1 : U.card ≤ f₁) (h2 : U.card ≤ f₂) :
    build_temp_cluster bound adj f₁ temp start =
      build_temp_cluster bound adj f₂ temp start :=
  btc_stab bound adj U hadj U.card f₁ f₂ temp start
    (Finset.card_le_card Finset.sdiff_subset) h1 h2

/-- C10 witness: the two-edge graph 0-1-2, fuels 3 and 7. -/
theorem c10_build_temp_cluster_terminates_witness :
    (∀ i, adjOf gW i ⊆ allIds gW) ∧
    (allIds gW).card ≤ 3 ∧ (allIds gW).card ≤ 7 ∧
    build_temp_cluster 3 (adjOf gW) 3 {0} 0 =
      build_temp_cluster 3 (adjOf gW) 7 {0} 0 :=
  ⟨fun i => adjOf_subset_allIds gW i, by decide, by decide,
    c10_build_temp_cluster_terminates 3 (adjOf gW) (allIds gW)
      (fun i => adjOf_subset_allIds gW i) {0} 0 3 7 (by decide) (by decide)⟩
